import Mathlib

/-!
# Verification of the feedback-analysis core

Shallow embedding of the feedback-analysis core of the repository:
  * `src/Task_2/llm.py` — prompt building (`build_prompt`), model invocation
    (`call_llm`), JSON extraction (`parse_llm_json`) and normalization
    (`generate_feedback`);
  * `src/app.py` — the section-header extraction inside `analyze_feedback`.

Python strings are modelled as `List Char` (wrapped in `String` at the API
boundary), Python objects decoded from JSON as the inductive `JValue`, and
Python `json.loads` as a fuel-based recursive descent over `List Char`.
-/

namespace FeedbackCore

/-- Python values that `json.loads` can produce: `None`, booleans, numbers,
strings, lists and dicts.  Dicts are kept as association lists in parse
order; `pyGet` below reproduces dict lookup (where a later duplicate key
overwrites an earlier one).  Numbers are modelled as integers; fractional
and exponent literals are outside the fragment any claim exercises. -/
inductive JValue where
  | null : JValue
  | bool (b : Bool) : JValue
  | num (n : Int) : JValue
  | str (s : String) : JValue
  | arr (elems : List JValue) : JValue
  | obj (fields : List (String × JValue)) : JValue
deriving Repr

/-- Test whether `v` is a Python string (`isinstance(v, str)`). -/
def JValue.isStr : JValue → Bool
  | .str _ => true
  | _ => false

/-- Test whether `v` is a Python list (`isinstance(v, list)`). -/
def JValue.isArr : JValue → Bool
  | .arr _ => true
  | _ => false

/-- Python `dict.get k` on a dict built by assigning the bindings of
`fields` in order: the last binding of a duplicated key wins; `none`
models the key being absent. -/
def pyGet (fields : List (String × JValue)) (k : String) : Option JValue :=
  fields.foldl (fun acc kv => if kv.1 = k then some kv.2 else acc) none

mutual

/-- Python `repr` of a decoded-JSON value (the rendering `str` uses inside
containers).  String reprs are modelled for plain printable strings: a
single-quoted copy of the contents; no claim evaluates `pyRepr` on a string
needing escapes. -/
def pyRepr : JValue → String
  | .null => "None"
  | .bool true => "True"
  | .bool false => "False"
  | .num n => toString n
  | .str s => "\x27" ++ s ++ "\x27"
  | .arr l => "[" ++ ", ".intercalate (pyReprList l) ++ "]"
  | .obj fs => "\x7b" ++ ", ".intercalate (pyReprFields fs) ++ "\x7d"

/-- Rendering of each element of a Python list. -/
def pyReprList : List JValue → List String
  | [] => []
  | v :: vs => pyRepr v :: pyReprList vs

/-- Rendering of each `key: value` entry of a Python dict. -/
def pyReprFields : List (String × JValue) → List String
  | [] => []
  | kv :: fs => ("\x27" ++ kv.1 ++ "\x27: " ++ pyRepr kv.2) :: pyReprFields fs

end

/-- Python `str` of a decoded-JSON value: strings render as themselves,
every other value renders as its `repr`. -/
def pyStr : JValue → String
  | .str s => s
  | v => pyRepr v

/-! ## Model of `json.loads` (recursive descent with fuel) -/

/-- JSON inter-token whitespace (`' '`, `'\t'`, `'\n'`, `'\r'`), as skipped
by CPython's `json` scanner. -/
def jsonWs (c : Char) : Bool :=
  c = ' ' || c = '\t' || c = '\n' || c = '\r'

/-- Value of a hex digit, for `\uXXXX` escapes. -/
def hexVal (c : Char) : Option Nat :=
  if '0' ≤ c && c ≤ '9' then some (c.toNat - 48)
  else if 'a' ≤ c && c ≤ 'f' then some (c.toNat - 87)
  else if 'A' ≤ c && c ≤ 'F' then some (c.toNat - 70)
  else none

/-- Scan the rest of a JSON string literal (the opening quote already
consumed): returns the decoded characters and the input after the closing
quote.  Handles the JSON escapes and rejects unescaped control characters,
as CPython's strict scanner does.  (`\uXXXX` is decoded per code unit;
surrogate pairs are outside the fragment any claim exercises.) -/
def parseStringRest : List Char → Option (List Char × List Char)
  | [] => none
  | '"' :: rest => some ([], rest)
  | '\\' :: '"' :: rest => (parseStringRest rest).map (fun p => ('"' :: p.1, p.2))
  | '\\' :: '\\' :: rest => (parseStringRest rest).map (fun p => ('\\' :: p.1, p.2))
  | '\\' :: '/' :: rest => (parseStringRest rest).map (fun p => ('/' :: p.1, p.2))
  | '\\' :: 'b' :: rest => (parseStringRest rest).map (fun p => ('\x08' :: p.1, p.2))
  | '\\' :: 'f' :: rest => (parseStringRest rest).map (fun p => ('\x0c' :: p.1, p.2))
  | '\\' :: 'n' :: rest => (parseStringRest rest).map (fun p => ('\n' :: p.1, p.2))
  | '\\' :: 'r' :: rest => (parseStringRest rest).map (fun p => ('\r' :: p.1, p.2))
  | '\\' :: 't' :: rest => (parseStringRest rest).map (fun p => ('\t' :: p.1, p.2))
  | '\\' :: 'u' :: h1 :: h2 :: h3 :: h4 :: rest =>
    match hexVal h1, hexVal h2, hexVal h3, hexVal h4 with
    | some a, some b, some c, some d =>
      (parseStringRest rest).map
        (fun p => (Char.ofNat (((a * 16 + b) * 16 + c) * 16 + d) :: p.1, p.2))
    | _, _, _, _ => none
  | '\\' :: _ => none
  | c :: rest =>
    if c.toNat < 0x20 then none
    else (parseStringRest rest).map (fun p => (c :: p.1, p.2))

/-- Accumulated value of a digit run. -/
def digitsToNat (ds : List Char) : Nat :=
  ds.foldl (fun a c => a * 10 + (c.toNat - 48)) 0

/-- Scan an unsigned JSON integer: a single `0`, or a nonzero digit
followed by digits (leading zeros are invalid JSON). -/
def parseUInt : List Char → Option (Nat × List Char)
  | [] => none
  | c :: rest =>
    if c = '0' then
      if (rest.head?.map Char.isDigit).getD false then none else some (0, rest)
    else if c.isDigit then
      let p := rest.span Char.isDigit
      some (digitsToNat (c :: p.1), p.2)
    else none

/-- Scan a JSON number.  Only integers are modelled: a fraction or exponent
continuation makes the scan fail (no claim involves non-integer numbers). -/
def parseJNumber (l : List Char) : Option (JValue × List Char) :=
  match l with
  | '-' :: rest =>
    match parseUInt rest with
    | some (n, r) =>
      if (r.head?.map (fun c => c = '.' || c = 'e' || c = 'E')).getD false then none
      else some (.num (-(n : Int)), r)
    | none => none
  | _ =>
    match parseUInt l with
    | some (n, r) =>
      if (r.head?.map (fun c => c = '.' || c = 'e' || c = 'E')).getD false then none
      else some (.num (n : Int), r)
    | none => none

mutual

/-- Scan one JSON value starting at the head of `l` (leading whitespace
already skipped).  Fuel only bounds the recursion depth; one unit is spent
per nested construct, so `length + 1` units always suffice. -/
def parseValueF (fuel : Nat) (l : List Char) : Option (JValue × List Char) :=
  match fuel with
  | 0 => none
  | f + 1 =>
    match l with
    | '"' :: rest => (parseStringRest rest).map (fun p => (.str ⟨p.1⟩, p.2))
    | '{' :: rest =>
      match rest.dropWhile jsonWs with
      | '}' :: r => some (.obj [], r)
      | r => (parseMembersF f r).map (fun p => (.obj p.1, p.2))
    | '[' :: rest =>
      match rest.dropWhile jsonWs with
      | ']' :: r => some (.arr [], r)
      | r => (parseElemsF f r).map (fun p => (.arr p.1, p.2))
    | 't' :: 'r' :: 'u' :: 'e' :: rest => some (.bool true, rest)
    | 'f' :: 'a' :: 'l' :: 's' :: 'e' :: rest => some (.bool false, rest)
    | 'n' :: 'u' :: 'l' :: 'l' :: rest => some (.null, rest)
    | _ => parseJNumber l

/-- Scan the members of a JSON object, positioned at the opening quote of a
key; consumes through the closing `}`. -/
def parseMembersF (fuel : Nat) (l : List Char) : Option (List (String × JValue) × List Char) :=
  match fuel with
  | 0 => none
  | f + 1 =>
    match l with
    | '"' :: rest =>
      match parseStringRest rest with
      | some (keyCs, r1) =>
        match r1.dropWhile jsonWs with
        | ':' :: r2 =>
          match parseValueF f (r2.dropWhile jsonWs) with
          | some (v, r3) =>
            match r3.dropWhile jsonWs with
            | ',' :: r4 =>
              (parseMembersF f (r4.dropWhile jsonWs)).map
                (fun p => ((⟨keyCs⟩, v) :: p.1, p.2))
            | '}' :: r4 => some ([(⟨keyCs⟩, v)], r4)
            | _ => none
          | none => none
        | _ => none
      | none => none
    | _ => none

/-- Scan the elements of a JSON array, positioned at the first element;
consumes through the closing `]`. -/
def parseElemsF (fuel : Nat) (l : List Char) : Option (List JValue × List Char) :=
  match fuel with
  | 0 => none
  | f + 1 =>
    match parseValueF f l with
    | some (v, r1) =>
      match r1.dropWhile jsonWs with
      | ',' :: r2 => (parseElemsF f (r2.dropWhile jsonWs)).map (fun p => (v :: p.1, p.2))
      | ']' :: r2 => some ([v], r2)
      | _ => none
    | none => none

end

/-- Model of Python `json.loads`: skip leading whitespace, scan one value,
and require that only whitespace remains.  `none` models `JSONDecodeError`. -/
def jsonLoads (l : List Char) : Option JValue :=
  match parseValueF (l.length + 1) (l.dropWhile jsonWs) with
  | some (v, rest) => if rest.dropWhile jsonWs = [] then some v else none
  | none => none

/-! ## Model of `src/Task_2/llm.py` -/

/-- The two parse-failure signals `parse_llm_json` raises (both are
`LLMError` in the source; the spec names them `NoJsonFound` and
`MalformedJson`, the latter carrying the Python parser's diagnostic text,
which is not modelled beyond the constructor identity). -/
inductive LLMError where
  | noJsonFound : LLMError
  | malformedJson : LLMError
deriving Repr, DecidableEq

/-- Python `raw_text.find(c)` for a single character: index of the first
occurrence, `none` modelling `-1`. -/
def findBrace (c : Char) : List Char → Option Nat
  | [] => none
  | x :: rest => if x = c then some 0 else (findBrace c rest).map (· + 1)

/-- Python `raw_text.rfind(c)` for a single character: index of the last
occurrence, `none` modelling `-1`. -/
def rfindBrace (c : Char) (l : List Char) : Option Nat :=
  match findBrace c l.reverse with
  | none => none
  | some i => some (l.length - 1 - i)

/-- Model of `parse_llm_json` (src/Task_2/llm.py): take the substring from the first
`{` through the last `}` inclusive and run `json.loads` on it; raise
`noJsonFound` when either brace is missing or `end <= start`, and
`malformedJson` when the candidate span fails to parse. -/
def parse_llm_json (raw_text : String) : Except LLMError JValue :=
  match findBrace '{' raw_text.data, rfindBrace '}' raw_text.data with
  | some s, some e =>
    if e ≤ s then .error .noJsonFound
    else
      match jsonLoads ((raw_text.data.drop s).take (e + 1 - s)) with
      | some obj => .ok obj
      | none => .error .malformedJson
  | _, _ => .error .noJsonFound

/-- The record `generate_feedback` returns: a dict with exactly the keys
`user_response`, `summary` and `actions`, where `actions` is always a
Python list. -/
structure StructuredFeedback where
  user_response : JValue
  summary : JValue
  actions : List JValue
deriving Repr

/-- The field view of a decoded value.  `parse_llm_json` can only succeed
on a span that starts with `{`, so its result is always an object
(`parse_llm_json_ok_obj` below); the catch-all is never reached. -/
def objFields : JValue → List (String × JValue)
  | .obj fs => fs
  | _ => []

/-- The normalization tail of `generate_feedback` (src/Task_2/llm.py):
default `user_response`, `summary` and `actions` when their keys are
absent, and wrap a non-list `actions` as `[str(actions)]`. -/
def normalize_feedback (data : List (String × JValue)) : StructuredFeedback :=
  let user_response := (pyGet data "user_response").getD (.str "Thank you for your feedback!")
  let summary := (pyGet data "summary").getD (.str "Customer left feedback.")
  let actions0 := (pyGet data "actions").getD (.arr [])
  let actions :=
    match actions0 with
    | .arr elems => elems
    | v => [.str (pyStr v)]
  ⟨user_response, summary, actions⟩

/-- The deterministic part of `generate_feedback`: parse the raw model
output, then normalize — the spec's `parse_and_normalize` contract. -/
def parse_and_normalize (raw_text : String) : Except LLMError StructuredFeedback :=
  (parse_llm_json raw_text).map (fun v => normalize_feedback (objFields v))

/-! ### `build_prompt` -/

/-- The `build_prompt` f-string template up to the `Rating: ` label. -/
def promptTplHead : String :=
  "\nYou are an AI assistant helping a business understand customer feedback.\n\nYou will receive:\n- A star rating (1 to 5)\n- A short free-text review\n\nYour tasks:\n1. Write a short, warm, user-facing reply directly to the customer.\n2. Summarise the essence of the review in <= 20 words.\n3. Suggest 2–3 concrete next actions for the business.\n\nReturn ONLY a valid JSON object with these exact keys:\n- \"user_response\": string\n- \"summary\": string\n- \"actions\": array of strings\n\nExample of the required format:\n\x7b\n  \"user_response\": \"Thank you for your feedback...\",\n  \"summary\": \"Customer loved the food but found service slow.\",\n  \"actions\": [\n    \"Train staff to reduce wait time\",\n    \"Monitor peak hours and add staff\"\n  ]\n\x7d\n\nNow generate the JSON.\n\n"

/-- The template between the embedded rating and the embedded review. -/
def promptTplB : String := "\nReview: \"\"\""

/-- The template after the embedded review. -/
def promptTplC : String := "\"\"\" \n\nJSON:\n"

/-- Python `str.strip()` whitespace (ASCII fragment). -/
def pyIsSpace (c : Char) : Bool :=
  c = ' ' || c = '\t' || c = '\n' || c = '\r' || c = '\x0b' || c = '\x0c'

/-- Python `str.strip()`: drop whitespace from both ends. -/
def pyStrip (l : List Char) : List Char :=
  ((l.dropWhile pyIsSpace).reverse.dropWhile pyIsSpace).reverse

/-- Model of `build_prompt` (src/Task_2/llm.py): the fixed template with `rating`
and `review` interpolated verbatim, then `.strip()`-ped. -/
def build_prompt (rating : Int) (review : String) : String :=
  ⟨pyStrip ((promptTplHead ++ ("Rating: ")).data ++ (toString rating).data
      ++ promptTplB.data ++ review.data ++ promptTplC.data)⟩

/-! ### String scanning predicates (shared by `call_llm` and the
section-header mode) -/

/-- Test whether `pat` is a leading segment of `l`. -/
def startsWithL : List Char → List Char → Bool
  | [], _ => true
  | _ :: _, [] => false
  | p :: ps, c :: cs => p = c && startsWithL ps cs

/-- Test whether `pat` occurs as a contiguous substring of `l`. -/
def containsSub (pat : List Char) : List Char → Bool
  | [] => startsWithL pat []
  | c :: rest => startsWithL pat (c :: rest) || containsSub pat rest

/-- Test whether `pat` is a trailing segment of `l`. -/
def endsWithL (pat l : List Char) : Bool :=
  startsWithL pat.reverse l.reverse

/-! ### `call_llm` -/

/-- What the model-invocation collaborator can produce.  `typeError`
models an uncaught Python `TypeError` escaping `call_llm` (raised by the
`in` test or the subscript on the first element of a list response,
src/Task_2/llm.py lines 39-40). -/
inductive CallResult where
  | ok (v : JValue) : CallResult
  | authMissing : CallResult
  | serviceError (status : Nat) (body : String) : CallResult
  | typeError : CallResult
deriving Repr

/-- Python falsiness of the `HF_API_TOKEN` environment value (`not token`
is true for an unset variable and for the empty string). -/
def tokenMissing : Option String → Bool
  | none => true
  | some s => s = ""

/-- The HTTP response the `requests.post` call yields: status code, body
text, and the decoded JSON body (`resp.json()`); 200-responses from the
inference API are assumed to carry JSON bodies. -/
structure HttpResponse where
  status_code : Nat
  text : String
  body : JValue

/-- Python `x == "generated_text"` for a decoded-JSON value `x`: true
only for the equal string (used by the `in` membership test when the
first element of a list response is itself a list). -/
def isGeneratedTextStr : JValue → Bool
  | .str s => s = "generated_text"
  | _ => false

/-- Whether evaluating `"generated_text" in data[0]` and, when that test
passes, `data[0]["generated_text"]` (src/Task_2/llm.py lines 39-40)
raises `TypeError`, for `data[0]` the first element of a list response:
`None`, booleans and numbers do not support `in`; a string or list first
element that passes the `in` test (substring, or member equal to
`"generated_text"`) then fails at the subscript; dicts never raise
here. -/
def headTypeErrors : JValue → Bool
  | .obj _ => false
  | .str s => containsSub ("generated_text").data s.data
  | .arr l => l.any isGeneratedTextStr
  | _ => true

/-- Model of `call_llm` (src/Task_2/llm.py): raise when the token is unset (before
the network call), raise with status and body on a non-200 response, and
otherwise normalize the two accepted response shapes (`list[dict]` with a
`generated_text` key in the first element, or `dict` with a
`generated_text` key), falling back to `str(data)`.  A list response whose
first element is not a dict makes the Python `in` test or the subsequent
subscript raise `TypeError` (see `headTypeErrors`); this escapes as
`CallResult.typeError`. -/
def call_llm (token : Option String) (resp : HttpResponse) : CallResult :=
  if tokenMissing token then .authMissing
  else if resp.status_code ≠ 200 then .serviceError resp.status_code resp.text
  else
    match resp.body with
    | .arr (.obj fs :: rest) =>
      match pyGet fs ("generated_text") with
      | some v => .ok v
      | none => .ok (.str (pyStr (.arr (.obj fs :: rest))))
    | .arr (.str s :: rest) =>
      if containsSub ("generated_text").data s.data then .typeError
      else .ok (.str (pyStr (.arr (.str s :: rest))))
    | .arr (.arr l :: rest) =>
      if l.any isGeneratedTextStr then .typeError
      else .ok (.str (pyStr (.arr (.arr l :: rest))))
    | .arr (_ :: _) => .typeError
    | .obj fs =>
      match pyGet fs ("generated_text") with
      | some v => .ok v
      | none => .ok (.str (pyStr (.obj fs)))
    | d => .ok (.str (pyStr d))

/-! ## Model of the section-header extraction in `analyze_feedback`
(src/app.py) -/

/-- The literal split marker of `analyze_feedback`. -/
def actionsMarker : List Char := "ACTIONS:".data

/-- The literal replace marker of `analyze_feedback`. -/
def summaryMarker : List Char := "SUMMARY:".data

/-- The left-to-right scan of Python `str.split` on the marker
`ACTIONS:`.  The fuel argument, instantiated with the length of the list,
only drives structural recursion (every step consumes at least one
character, so the fuel never runs out on the instantiating call). -/
def splitGo : Nat → List Char → List (List Char)
  | 0, l => [l]
  | f + 1, l =>
    match l with
    | [] => [[]]
    | c :: rest =>
      if startsWithL actionsMarker (c :: rest) then
        [] :: splitGo f ((c :: rest).drop actionsMarker.length)
      else
        match splitGo f rest with
        | [] => [[c]]
        | h :: t => (c :: h) :: t

/-- Python `analysis.split("ACTIONS:")`: split on every (leftmost,
non-overlapping) occurrence of the marker. -/
def splitActions (l : List Char) : List (List Char) :=
  splitGo l.length l

/-- The left-to-right scan of Python `str.replace` deleting the marker
`SUMMARY:`; fuel as in `splitGo`. -/
def replaceGo : Nat → List Char → List Char
  | 0, l => l
  | _ + 1, [] => []
  | f + 1, c :: rest =>
    if startsWithL summaryMarker (c :: rest) then
      replaceGo f ((c :: rest).drop summaryMarker.length)
    else
      c :: replaceGo f rest

/-- Python `parts[0].replace("SUMMARY:", "")`: delete every (leftmost,
non-overlapping) occurrence of the marker. -/
def replaceSummary (l : List Char) : List Char :=
  replaceGo l.length l

/-- The section-header extraction inside `analyze_feedback` (src/app.py):
split on `ACTIONS:`, strip `SUMMARY:` out of the part before it and trim,
and take the trimmed second part as actions, with a fixed fallback when
the marker is absent.  `splitActions` always returns at least one part
(`splitActions_ne_nil` below), so the first branch is never reached. -/
def parse_sections (analysis : List Char) : List Char × List Char :=
  match splitActions analysis with
  | [] => ([], [])
  | p0 :: rest =>
    (pyStrip (replaceSummary p0),
     match rest with
     | [] => "Could not parse actions.".data
     | p1 :: _ => pyStrip p1)

/-! ## Helper lemmas: locating braces -/

theorem findBrace_eq_none_iff (c : Char) (l : List Char) :
    findBrace c l = none ↔ c ∉ l := by
  induction l with
  | nil => simp [findBrace]
  | cons x rest ih =>
    by_cases h : x = c
    · subst h; simp [findBrace]
    · rw [show findBrace c (x :: rest) = if x = c then some 0
          else (findBrace c rest).map (· + 1) from rfl, if_neg h]
      constructor
      · intro hm
        simp only [Option.map_eq_none'] at hm
        simp only [List.mem_cons, not_or]
        exact ⟨fun hc => h hc.symm, ih.mp hm⟩
      · intro hm
        simp only [List.mem_cons, not_or] at hm
        simp [ih.mpr hm.2]

theorem findBrace_append_of_not_mem {c : Char} {a : List Char} (b : List Char) (h : c ∉ a) :
    findBrace c (a ++ b) = (findBrace c b).map (· + a.length) := by
  induction a with
  | nil =>
    simp only [List.nil_append, List.length_nil]
    cases hb : findBrace c b <;> simp
  | cons x rest ih =>
    simp only [List.mem_cons, not_or] at h
    rw [show (x :: rest) ++ b = x :: (rest ++ b) from rfl]
    rw [show findBrace c (x :: (rest ++ b)) = if x = c then some 0
        else (findBrace c (rest ++ b)).map (· + 1) from rfl]
    rw [if_neg (fun hx => h.1 hx.symm), ih h.2]
    cases hb : findBrace c b <;> simp [List.length_cons]
    omega

theorem findBrace_cons_self (c : Char) (r : List Char) :
    findBrace c (c :: r) = some 0 := by
  simp [findBrace]

theorem rfindBrace_eq_none_iff (c : Char) (l : List Char) :
    rfindBrace c l = none ↔ c ∉ l := by
  unfold rfindBrace
  cases h : findBrace c l.reverse with
  | none =>
    have := (findBrace_eq_none_iff c l.reverse).mp h
    simp only [List.mem_reverse] at this
    simp [this]
  | some i =>
    have : c ∈ l.reverse := by
      by_contra hc
      rw [(findBrace_eq_none_iff c l.reverse).mpr hc] at h
      exact Option.noConfusion h
    simp only [List.mem_reverse] at this
    simp [this]

theorem findBrace_sandwich {p t : List Char} (s : List Char)
    (hp : '{' ∉ p) (ht : t.head? = some '{') :
    findBrace '{' (p ++ t ++ s) = some p.length := by
  obtain ⟨t', rfl⟩ : ∃ t', t = '{' :: t' := by
    cases t with
    | nil => exact absurd ht (by simp)
    | cons a as =>
      simp only [List.head?_cons, Option.some.injEq] at ht
      exact ⟨as, by rw [ht]⟩
  rw [List.append_assoc, findBrace_append_of_not_mem _ hp]
  simp [findBrace_cons_self]

theorem rfindBrace_sandwich {t s : List Char} (p : List Char)
    (hs : '}' ∉ s) (ht : t.getLast? = some '}') :
    rfindBrace '}' (p ++ t ++ s) = some (p.length + t.length - 1) := by
  obtain ⟨t', ht'⟩ : ∃ t', t.reverse = '}' :: t' := by
    cases hrev : t.reverse with
    | nil =>
      rw [← List.head?_reverse, hrev] at ht
      exact absurd ht (by simp)
    | cons a as =>
      rw [← List.head?_reverse, hrev] at ht
      simp only [List.head?_cons, Option.some.injEq] at ht
      exact ⟨as, by rw [ht]⟩
  have hlen : t.length = t'.length + 1 := by
    rw [← List.length_reverse, ht', List.length_cons]
  unfold rfindBrace
  have hrev : (p ++ t ++ s).reverse = s.reverse ++ ('}' :: t' ++ p.reverse) := by
    simp [List.reverse_append, ht']
  rw [hrev, findBrace_append_of_not_mem _ (by simpa using hs)]
  rw [show ('}' :: t' ++ p.reverse) = '}' :: (t' ++ p.reverse) from rfl,
    findBrace_cons_self]
  simp only [Option.map_some', Option.some.injEq]
  simp only [List.length_append, List.length_reverse]
  omega

/-- On a text of the shape `prose ++ object-text ++ prose`, with no `{` in
the leading prose and no `}` in the trailing prose, `parse_llm_json`
extracts exactly the object text and hands it to the JSON scanner. -/
theorem parse_llm_json_sandwich {p t s : List Char}
    (hp : '{' ∉ p) (hs : '}' ∉ s)
    (h1 : t.head? = some '{') (h2 : t.getLast? = some '}') :
    parse_llm_json ⟨p ++ t ++ s⟩ =
      match jsonLoads t with
      | some obj => .ok obj
      | none => .error .malformedJson := by
  have ht1 : 1 ≤ t.length := by
    cases t with
    | nil => exact absurd h1 (by simp)
    | cons a as => simp
  have ht2 : 2 ≤ t.length := by
    rcases t with _ | ⟨a, _ | ⟨b, bs⟩⟩
    · exact absurd h1 (by simp)
    · simp only [List.head?_cons, Option.some.injEq] at h1
      simp only [List.getLast?_singleton, Option.some.injEq] at h2
      rw [h1] at h2
      exact absurd h2 (by decide)
    · simp only [List.length_cons]; omega
  unfold parse_llm_json
  rw [show (String.mk (p ++ t ++ s)).data = p ++ t ++ s from rfl]
  rw [findBrace_sandwich s hp h1, rfindBrace_sandwich p hs h2]
  have hdrop : List.drop p.length (p ++ t ++ s) = t ++ s := by
    rw [List.append_assoc]
    exact List.drop_left p (t ++ s)
  have htake : List.take (p.length + t.length - 1 + 1 - p.length) (t ++ s) = t := by
    rw [show p.length + t.length - 1 + 1 - p.length = t.length from by omega]
    exact List.take_left t s
  show (if p.length + t.length - 1 ≤ p.length then (Except.error LLMError.noJsonFound)
      else
        match jsonLoads (List.take (p.length + t.length - 1 + 1 - p.length)
            (List.drop p.length (p ++ t ++ s))) with
        | some obj => Except.ok obj
        | none => Except.error LLMError.malformedJson) = _
  rw [if_neg (by omega : ¬ p.length + t.length - 1 ≤ p.length), hdrop, htake]

theorem findBrace_drop (l : List Char) {c : Char} (i : Nat)
    (h : findBrace c l = some i) : ∃ r, l.drop i = c :: r := by
  induction l generalizing i with
  | nil => exact Option.noConfusion h
  | cons x rest ih =>
    by_cases hx : x = c
    · subst hx
      rw [findBrace_cons_self] at h
      rw [← Option.some.inj h]
      exact ⟨rest, rfl⟩
    · rw [show findBrace c (x :: rest) = if x = c then some 0
        else (findBrace c rest).map (· + 1) from rfl, if_neg hx] at h
      obtain ⟨j, hj, hji⟩ := Option.map_eq_some'.mp h
      obtain ⟨r, hr⟩ := ih j hj
      exact ⟨r, by rw [← hji, List.drop_succ_cons, hr]⟩

theorem jsonLoads_lbrace_obj (m : List Char) (v : JValue)
    (h : jsonLoads ('{' :: m) = some v) : ∃ fs, v = JValue.obj fs := by
  unfold jsonLoads at h
  rw [show ('{' :: m).dropWhile jsonWs = '{' :: m from by
    rw [List.dropWhile_cons, if_neg (by decide)]] at h
  have h2 : (match (match m.dropWhile jsonWs with
      | '}' :: r => some ((JValue.obj [] : JValue), r)
      | r => (parseMembersF (m.length + 1) r).map
          (fun (p : List (String × JValue) × List Char) => (JValue.obj p.1, p.2))) with
    | some (w, rest) => if rest.dropWhile jsonWs = [] then some w else none
    | none => none) = some v := h
  cases hi : (match m.dropWhile jsonWs with
      | '}' :: r => some ((JValue.obj [] : JValue), r)
      | r => (parseMembersF (m.length + 1) r).map
          (fun (p : List (String × JValue) × List Char) => (JValue.obj p.1, p.2))) with
  | none => rw [hi] at h2; exact Option.noConfusion h2
  | some pr =>
    rw [hi] at h2
    obtain ⟨w, rest⟩ := pr
    have h3 : (if rest.dropWhile jsonWs = [] then some w else none) = some v := h2
    have hobj : ∃ fs, w = JValue.obj fs := by
      split at hi
      · have hp := Option.some.inj hi
        exact ⟨[], (congrArg Prod.fst hp).symm⟩
      · obtain ⟨p, _, hpe⟩ := Option.map_eq_some'.mp hi
        exact ⟨p.1, (congrArg Prod.fst hpe).symm⟩
    by_cases hws : rest.dropWhile jsonWs = []
    · rw [if_pos hws] at h3
      obtain ⟨fs, hfs⟩ := hobj
      exact ⟨fs, by rw [← Option.some.inj h3, hfs]⟩
    · rw [if_neg hws] at h3
      exact Option.noConfusion h3

/-- A successful `parse_llm_json` always yields an object: the extracted
span begins with the first `{`, so the scanner can only produce an object
there (this is why the catch-all of `objFields` is unreachable). -/
theorem parse_llm_json_ok_obj (raw : String) (v : JValue)
    (h : parse_llm_json raw = .ok v) : ∃ fs, v = JValue.obj fs := by
  unfold parse_llm_json at h
  cases hf : findBrace '{' raw.data with
  | none => rw [hf] at h; exact Except.noConfusion h
  | some si =>
    cases hr : rfindBrace '}' raw.data with
    | none => rw [hf, hr] at h; exact Except.noConfusion h
    | some ei =>
      rw [hf, hr] at h
      have h2 : (if ei ≤ si then (Except.error LLMError.noJsonFound : Except LLMError JValue)
          else match jsonLoads (List.take (ei + 1 - si) (List.drop si raw.data)) with
            | some obj => Except.ok obj
            | none => Except.error LLMError.malformedJson) = Except.ok v := h
      by_cases hle : ei ≤ si
      · rw [if_pos hle] at h2
        exact Except.noConfusion h2
      · rw [if_neg hle] at h2
        cases hj : jsonLoads (List.take (ei + 1 - si) (List.drop si raw.data)) with
        | none => rw [hj] at h2; exact Except.noConfusion h2
        | some w =>
          rw [hj] at h2
          obtain ⟨r, hra⟩ := findBrace_drop raw.data si hf
          have hspan : List.take (ei + 1 - si) (List.drop si raw.data) =
              '{' :: List.take (ei - si) r := by
            rw [hra, show ei + 1 - si = (ei - si) + 1 from by omega]
            rfl
          rw [hspan] at hj
          rw [← Except.ok.inj h2]
          exact jsonLoads_lbrace_obj _ _ hj

/-! ## Claims C1–C5: the strict JSON pipeline -/

/-- C1 (amended): a well-formed JSON object with string values at
`user_response` and `summary` and an array of strings at `actions`,
embedded in surrounding prose that contributes no `{` before the object
and no `}` after it, is recovered exactly by the strict-mode pipeline. -/
theorem embedded_json_recovered (p t s : List Char) (fs : List (String × JValue))
    (ur sm : String) (acts : List String)
    (hp : '{' ∉ p) (hs : '}' ∉ s)
    (h1 : t.head? = some '{') (h2 : t.getLast? = some '}')
    (hparse : jsonLoads t = some (.obj fs))
    (hur : pyGet fs ("user_response") = some (.str ur))
    (hsm : pyGet fs ("summary") = some (.str sm))
    (hac : pyGet fs ("actions") = some (.arr (acts.map JValue.str))) :
    parse_and_normalize ⟨p ++ t ++ s⟩ =
      .ok ⟨.str ur, .str sm, acts.map JValue.str⟩ := by
  unfold parse_and_normalize
  rw [parse_llm_json_sandwich hp hs h1 h2, hparse]
  show Except.ok (normalize_feedback (objFields (.obj fs))) = _
  unfold normalize_feedback objFields
  rw [hur, hsm, hac]
  rfl

/-- Witness for C1: a concrete three-field object inside prose. -/
theorem embedded_json_recovered_witness :
    jsonLoads ("\x7b\"user_response\": \"a\", \"summary\": \"b\", \"actions\": [\"c\"]\x7d").data =
      some (.obj [("user_response", .str ("a")), ("summary", .str ("b")),
        ("actions", .arr [.str ("c")])]) ∧
    parse_and_normalize ("Sure! \x7b\"user_response\": \"a\", \"summary\": \"b\", \"actions\": [\"c\"]\x7d bye") =
      .ok ⟨.str ("a"), .str ("b"), [JValue.str ("c")]⟩ := by
  constructor
  · rfl
  · exact embedded_json_recovered ("Sure! ").data
      ("\x7b\"user_response\": \"a\", \"summary\": \"b\", \"actions\": [\"c\"]\x7d").data
      (" bye").data
      [("user_response", .str ("a")), ("summary", .str ("b")), ("actions", .arr [.str ("c")])]
      ("a") ("b") [("c")]
      (by decide) (by decide) rfl rfl rfl rfl rfl rfl

/-- Counterexample for C1 as stated: prose containing a `{` before the
object widens the greedy span, so the pipeline fails instead of
recovering the embedded values. -/
theorem embedded_json_recovered_cex :
    parse_and_normalize ("\x7b \x7b\"user_response\": \"a\", \"summary\": \"b\", \"actions\": []\x7d") =
      .error .malformedJson ∧
    parse_and_normalize ("\x7b \x7b\"user_response\": \"a\", \"summary\": \"b\", \"actions\": []\x7d") ≠
      .ok ⟨.str ("a"), .str ("b"), []⟩ := by
  refine ⟨rfl, fun h => ?_⟩
  rw [show parse_and_normalize
      ("\x7b \x7b\"user_response\": \"a\", \"summary\": \"b\", \"actions\": []\x7d") =
      .error .malformedJson from rfl] at h
  exact Except.noConfusion h

/-- C2 (amended): a successful strict-mode run always yields a record with
all three fields, `actions` coming out as a sequence; the fields are text
whenever each expected key that is present in the parsed object is bound
to a value of its declared type (absent keys are defaulted to text). -/
theorem normalized_record_shape (raw : String) (fs : List (String × JValue))
    (h : parse_llm_json raw = .ok (.obj fs)) :
    parse_and_normalize raw = .ok (normalize_feedback fs) ∧
    ((∀ v, pyGet fs ("user_response") = some v → v.isStr = true) →
      (normalize_feedback fs).user_response.isStr = true) ∧
    ((∀ v, pyGet fs ("summary") = some v → v.isStr = true) →
      (normalize_feedback fs).summary.isStr = true) ∧
    ((∀ l, pyGet fs ("actions") = some (.arr l) → ∀ x ∈ l, x.isStr = true) →
      ∀ x ∈ (normalize_feedback fs).actions, x.isStr = true) := by
  refine ⟨?_, ?_, ?_, ?_⟩
  · unfold parse_and_normalize
    rw [h]
    rfl
  · intro hv
    unfold normalize_feedback
    cases hu : pyGet fs ("user_response") with
    | none => rfl
    | some v => exact hv v hu
  · intro hv
    unfold normalize_feedback
    cases hu : pyGet fs ("summary") with
    | none => rfl
    | some v => exact hv v hu
  · intro hv
    unfold normalize_feedback
    cases hu : pyGet fs ("actions") with
    | none => intro x hx; simp at hx
    | some v =>
      cases v with
      | arr l => exact hv l hu
      | null => intro x hx; simp at hx; rw [hx]; rfl
      | bool b => intro x hx; simp at hx; rw [hx]; rfl
      | num n => intro x hx; simp at hx; rw [hx]; rfl
      | str s => intro x hx; simp at hx; rw [hx]; rfl
      | obj o => intro x hx; simp at hx; rw [hx]; rfl

/-- Witness for C2: the spec's own example with only `summary` present. -/
theorem normalized_record_shape_witness :
    parse_and_normalize ("\x7b\"summary\": \"ok\"\x7d") =
      .ok ⟨.str ("Thank you for your feedback!"), .str ("ok"), []⟩ ∧
    (normalize_feedback [(("summary" : String), JValue.str ("ok"))]).user_response.isStr = true := by
  have h := normalized_record_shape ("\x7b\"summary\": \"ok\"\x7d")
    [(("summary" : String), JValue.str ("ok"))] rfl
  exact ⟨h.1, h.2.1 (fun v hv => Option.noConfusion hv)⟩

/-- Counterexample for C2 as stated: a parsed object binding
`user_response` to a boolean flows through unchanged, so the result field
is not text. -/
theorem normalized_record_shape_cex :
    parse_and_normalize ("\x7b\"user_response\": true\x7d") =
      .ok ⟨.bool true, .str ("Customer left feedback."), []⟩ ∧
    (JValue.bool true).isStr = false :=
  ⟨rfl, rfl⟩

/-- C3: normalization defaults — fixed fallback strings for absent
`user_response` and `summary`, the empty sequence for absent `actions`,
and a present non-sequence `actions` wrapped as the one-element sequence
of its textual representation (a bare string `s` becomes `[s]`), never an
error. -/
theorem normalize_feedback_defaults (fs : List (String × JValue)) :
    (pyGet fs ("user_response") = none →
      (normalize_feedback fs).user_response = .str ("Thank you for your feedback!")) ∧
    (pyGet fs ("summary") = none →
      (normalize_feedback fs).summary = .str ("Customer left feedback.")) ∧
    (pyGet fs ("actions") = none → (normalize_feedback fs).actions = []) ∧
    (∀ v, pyGet fs ("actions") = some v → v.isArr = false →
      (normalize_feedback fs).actions = [.str (pyStr v)]) ∧
    (∀ s, pyGet fs ("actions") = some (.str s) →
      (normalize_feedback fs).actions = [.str s]) := by
  refine ⟨?_, ?_, ?_, ?_, ?_⟩
  · intro h; unfold normalize_feedback; rw [h]; rfl
  · intro h; unfold normalize_feedback; rw [h]; rfl
  · intro h; unfold normalize_feedback; rw [h]; rfl
  · intro v hv hna
    unfold normalize_feedback
    rw [hv]
    cases v with
    | arr l => exact absurd hna (by simp [JValue.isArr])
    | null => rfl
    | bool b => rfl
    | num n => rfl
    | str s => rfl
    | obj o => rfl
  · intro s hv
    unfold normalize_feedback
    rw [hv]
    rfl

/-- Witness for C3: the spec's bare-string `actions` example, plus the
two default fields. -/
theorem normalize_feedback_defaults_witness :
    (normalize_feedback [(("actions" : String), JValue.str ("retrain staff"))]).actions =
      [JValue.str ("retrain staff")] ∧
    (normalize_feedback [(("actions" : String), JValue.str ("retrain staff"))]).user_response =
      .str ("Thank you for your feedback!") ∧
    (normalize_feedback [(("actions" : String), JValue.str ("retrain staff"))]).summary =
      .str ("Customer left feedback.") := by
  have h := normalize_feedback_defaults [(("actions" : String), JValue.str ("retrain staff"))]
  exact ⟨h.2.2.2.2 ("retrain staff") rfl, h.1 rfl, h.2.1 rfl⟩

/-- C4: `parse_llm_json` fails with `noJsonFound` exactly when the raw
text has no `{`, or no `}`, or the last `}` sits at or before the first
`{`; in every other case it hands the first-`{`-through-last-`}` span to
the JSON scanner, whose failure is reported as `malformedJson`. -/
theorem noJsonFound_characterization (raw : String) :
    (parse_llm_json raw = .error .noJsonFound ↔
      '{' ∉ raw.data ∨ '}' ∉ raw.data ∨
        ∃ si ei, findBrace '{' raw.data = some si ∧
          rfindBrace '}' raw.data = some ei ∧ ei ≤ si) ∧
    (∀ si ei, findBrace '{' raw.data = some si → rfindBrace '}' raw.data = some ei →
      si < ei →
      parse_llm_json raw =
        match jsonLoads ((raw.data.drop si).take (ei + 1 - si)) with
        | some obj => .ok obj
        | none => .error .malformedJson) := by
  constructor
  · constructor
    · intro h
      cases hf : findBrace '{' raw.data with
      | none => exact Or.inl ((findBrace_eq_none_iff _ _).mp hf)
      | some si =>
        cases hr : rfindBrace '}' raw.data with
        | none => exact Or.inr (Or.inl ((rfindBrace_eq_none_iff _ _).mp hr))
        | some ei =>
          refine Or.inr (Or.inr ⟨si, ei, rfl, rfl, ?_⟩)
          by_contra hgt
          unfold parse_llm_json at h
          rw [hf, hr] at h
          have h2 : (if ei ≤ si then (Except.error LLMError.noJsonFound : Except LLMError JValue)
              else match jsonLoads (List.take (ei + 1 - si) (List.drop si raw.data)) with
                | some obj => Except.ok obj
                | none => Except.error LLMError.malformedJson) =
              Except.error LLMError.noJsonFound := h
          rw [if_neg hgt] at h2
          cases hj : jsonLoads (List.take (ei + 1 - si) (List.drop si raw.data)) with
          | none => rw [hj] at h2; exact LLMError.noConfusion (Except.error.inj h2)
          | some obj => rw [hj] at h2; exact Except.noConfusion h2
    · intro h
      rcases h with h | h | ⟨si, ei, hf, hr, hle⟩
      · unfold parse_llm_json
        rw [(findBrace_eq_none_iff _ _).mpr h]
      · unfold parse_llm_json
        rw [(rfindBrace_eq_none_iff _ _).mpr h]
        cases findBrace '{' raw.data <;> rfl
      · unfold parse_llm_json
        rw [hf, hr]
        show (if ei ≤ si then (Except.error LLMError.noJsonFound : Except LLMError JValue)
            else match jsonLoads (List.take (ei + 1 - si) (List.drop si raw.data)) with
              | some obj => Except.ok obj
              | none => Except.error LLMError.malformedJson) = _
        rw [if_pos hle]
  · intro si ei hf hr hlt
    unfold parse_llm_json
    rw [hf, hr]
    show (if ei ≤ si then (Except.error LLMError.noJsonFound : Except LLMError JValue)
        else match jsonLoads (List.take (ei + 1 - si) (List.drop si raw.data)) with
          | some obj => Except.ok obj
          | none => Except.error LLMError.malformedJson) = _
    rw [if_neg (by omega : ¬ ei ≤ si)]

/-- Witness for C4: a braceless text fails with `noJsonFound`; a text
whose braces are in order reaches the JSON scanner. -/
theorem noJsonFound_characterization_witness :
    parse_llm_json ("no braces at all") = .error .noJsonFound ∧
    parse_llm_json ("ok \x7bnope\x7d!") = .error .malformedJson := by
  constructor
  · exact ((noJsonFound_characterization ("no braces at all")).1).mpr
      (Or.inl (by decide))
  · have h := (noJsonFound_characterization ("ok \x7bnope\x7d!")).2 3 8 rfl rfl
      (by omega)
    rw [h]
    rfl

/-- C5 (amended): the raw text `Sure! {not valid json` contains no `}`,
so the pipeline fails with `noJsonFound`; the variant with a closing
brace, `Sure! {not valid json}`, fails with `malformedJson`. -/
theorem malformed_example :
    parse_and_normalize ("Sure! \x7bnot valid json") = .error .noJsonFound ∧
    parse_and_normalize ("Sure! \x7bnot valid json\x7d") = .error .malformedJson :=
  ⟨rfl, rfl⟩

/-- Counterexample for C5 as stated: on `Sure! {not valid json` the
pipeline reports `noJsonFound`, not `malformedJson`. -/
theorem malformed_example_cex :
    parse_and_normalize ("Sure! \x7bnot valid json") = .error .noJsonFound ∧
    parse_and_normalize ("Sure! \x7bnot valid json") ≠ .error .malformedJson := by
  refine ⟨rfl, fun h => ?_⟩
  rw [show parse_and_normalize ("Sure! \x7bnot valid json") =
      .error .noJsonFound from rfl] at h
  exact LLMError.noConfusion (Except.error.inj h)

/-! ## Helper lemmas: marker scanning -/

theorem startsWithL_append_self (p r : List Char) : startsWithL p (p ++ r) = true := by
  induction p with
  | nil => rfl
  | cons c ps ih => simp [startsWithL, ih]

theorem startsWithL_append_of {pat a : List Char} (b : List Char)
    (h : startsWithL pat a = true) : startsWithL pat (a ++ b) = true := by
  induction pat generalizing a with
  | nil => rfl
  | cons c ps ih =>
    cases a with
    | nil => exact absurd h (by simp [startsWithL])
    | cons x xs =>
      simp only [startsWithL, Bool.and_eq_true] at h
      simp only [List.cons_append, startsWithL, Bool.and_eq_true]
      exact ⟨h.1, ih h.2⟩

theorem containsSub_of_startsWithL {pat l : List Char}
    (h : startsWithL pat l = true) : containsSub pat l = true := by
  cases l with
  | nil => exact h
  | cons c rest => simp [containsSub, h]

theorem containsSub_append_middle (x pat y : List Char) :
    containsSub pat (x ++ (pat ++ y)) = true := by
  induction x with
  | nil =>
    simp only [List.nil_append]
    exact containsSub_of_startsWithL (startsWithL_append_self pat y)
  | cons c xs ih =>
    show (startsWithL pat (c :: (xs ++ (pat ++ y))) || containsSub pat (xs ++ (pat ++ y))) = true
    rw [ih, Bool.or_true]

theorem endsWithL_append_left {pat tpl : List Char} (a : List Char)
    (h : endsWithL pat tpl = true) : endsWithL pat (a ++ tpl) = true := by
  unfold endsWithL at *
  rw [List.reverse_append]
  exact startsWithL_append_of _ h

theorem splitGo_nil (f : Nat) : splitGo f [] = [[]] := by
  cases f <;> rfl

theorem splitGo_ne_nil (f : Nat) (l : List Char) : splitGo f l ≠ [] := by
  cases f with
  | zero => simp [splitGo]
  | succ f =>
    cases l with
    | nil => simp [splitGo]
    | cons c rest =>
      show (if startsWithL actionsMarker (c :: rest) = true
          then [] :: splitGo f ((c :: rest).drop actionsMarker.length)
          else match splitGo f rest with
            | [] => [[c]]
            | h :: t => (c :: h) :: t) ≠ []
      by_cases hsw : startsWithL actionsMarker (c :: rest) = true
      · rw [if_pos hsw]; simp
      · rw [if_neg hsw]
        cases splitGo f rest <;> simp

/-- The fuel of `splitGo` is irrelevant once it covers the length. -/
theorem splitGo_fuel (f : Nat) : ∀ (g : Nat) (l : List Char),
    l.length ≤ f → l.length ≤ g → splitGo f l = splitGo g l := by
  induction f with
  | zero =>
    intro g l hf hg
    rw [List.length_eq_zero.mp (Nat.le_zero.mp hf), splitGo_nil, splitGo_nil]
  | succ f ih =>
    intro g l hf hg
    cases l with
    | nil => rw [splitGo_nil, splitGo_nil]
    | cons c rest =>
      cases g with
      | zero => simp at hg
      | succ g' =>
        show (if startsWithL actionsMarker (c :: rest) = true
            then [] :: splitGo f ((c :: rest).drop actionsMarker.length)
            else match splitGo f rest with
              | [] => [[c]]
              | h :: t => (c :: h) :: t) =
          (if startsWithL actionsMarker (c :: rest) = true
            then [] :: splitGo g' ((c :: rest).drop actionsMarker.length)
            else match splitGo g' rest with
              | [] => [[c]]
              | h :: t => (c :: h) :: t)
        simp only [List.length_cons] at hf hg
        by_cases hsw : startsWithL actionsMarker (c :: rest) = true
        · rw [if_pos hsw, if_pos hsw, ih g' _
            (by simp only [List.length_drop, List.length_cons,
              show actionsMarker.length = 8 from rfl]; omega)
            (by simp only [List.length_drop, List.length_cons,
              show actionsMarker.length = 8 from rfl]; omega)]
        · rw [if_neg hsw, if_neg hsw, ih g' rest (by omega) (by omega)]

/-- A text with no occurrence of the marker splits into one part. -/
theorem splitActions_no_occ (l : List Char)
    (h : ∀ i, i < l.length → startsWithL actionsMarker (l.drop i) = false) :
    splitActions l = [l] := by
  suffices hgen : ∀ (f : Nat) (l : List Char), l.length ≤ f →
      (∀ i, i < l.length → startsWithL actionsMarker (l.drop i) = false) →
      splitGo f l = [l] from hgen l.length l le_rfl h
  intro f
  induction f with
  | zero =>
    intro l hf _
    rw [List.length_eq_zero.mp (Nat.le_zero.mp hf), splitGo_nil]
  | succ f ih =>
    intro l hf h
    cases l with
    | nil => rw [splitGo_nil]
    | cons c rest =>
      have h0 : startsWithL actionsMarker (c :: rest) = false := by
        have := h 0 (by simp)
        simpa using this
      show (if startsWithL actionsMarker (c :: rest) = true
          then [] :: splitGo f ((c :: rest).drop actionsMarker.length)
          else match splitGo f rest with
            | [] => [[c]]
            | h :: t => (c :: h) :: t) = [c :: rest]
      rw [h0]
      simp only [Bool.false_eq_true, if_false]
      rw [ih rest (by simp only [List.length_cons] at hf; omega) (fun i hi => by
        have := h (i + 1) (by simp only [List.length_cons]; omega)
        simpa using this)]

/-- The split never returns an empty list of parts (Python `str.split`
always yields at least one part). -/
theorem splitActions_ne_nil (l : List Char) : splitActions l ≠ [] :=
  splitGo_ne_nil l.length l

/-- Splitting a text whose first marker occurrence starts right after
`pre` emits `pre` and continues on the remainder. -/
theorem splitActions_first_occ (pre post : List Char)
    (h : ∀ i, i < pre.length →
      startsWithL actionsMarker ((pre ++ (actionsMarker ++ post)).drop i) = false) :
    splitActions (pre ++ (actionsMarker ++ post)) = pre :: splitActions post := by
  suffices hgen : ∀ (pre : List Char) (f : Nat),
      (pre ++ (actionsMarker ++ post)).length ≤ f →
      (∀ i, i < pre.length →
        startsWithL actionsMarker ((pre ++ (actionsMarker ++ post)).drop i) = false) →
      splitGo f (pre ++ (actionsMarker ++ post)) = pre :: splitActions post from
    hgen pre _ le_rfl h
  intro pre
  induction pre with
  | nil =>
    intro f hf _
    simp only [List.nil_append] at hf ⊢
    cases f with
    | zero =>
      exact absurd hf (by simp [actionsMarker])
    | succ f' =>
      show (if startsWithL actionsMarker (actionsMarker ++ post) = true
          then [] :: splitGo f' ((actionsMarker ++ post).drop actionsMarker.length)
          else match splitGo f' (("CTIONS:").data ++ post) with
            | [] => [['A']]
            | h :: t => ('A' :: h) :: t) = [] :: splitActions post
      rw [startsWithL_append_self, if_pos rfl, List.drop_left]
      rw [splitGo_fuel f' post.length post
        (by simp only [List.length_append,
          show actionsMarker.length = 8 from rfl] at hf; omega) le_rfl]
      rfl
  | cons c pre' ih =>
    intro f hf h
    cases f with
    | zero =>
      exact absurd hf (by simp)
    | succ f' =>
      have h0 : startsWithL actionsMarker (c :: (pre' ++ (actionsMarker ++ post))) = false := by
        have := h 0 (by simp)
        simpa using this
      show (if startsWithL actionsMarker (c :: (pre' ++ (actionsMarker ++ post))) = true
          then [] :: splitGo f' ((c :: (pre' ++ (actionsMarker ++ post))).drop actionsMarker.length)
          else match splitGo f' (pre' ++ (actionsMarker ++ post)) with
            | [] => [[c]]
            | h :: t => (c :: h) :: t) = (c :: pre') :: splitActions post
      rw [h0]
      simp only [Bool.false_eq_true, if_false]
      rw [ih f' (by simp only [List.length_cons, List.length_append] at hf ⊢; omega)
        (fun i hi => by
          have := h (i + 1) (by simp only [List.length_cons]; omega)
          simpa using this)]

theorem replaceGo_nil (f : Nat) : replaceGo f [] = [] := by
  cases f <;> rfl

/-- The fuel of `replaceGo` is irrelevant once it covers the length. -/
theorem replaceGo_fuel (f : Nat) : ∀ (g : Nat) (l : List Char),
    l.length ≤ f → l.length ≤ g → replaceGo f l = replaceGo g l := by
  induction f with
  | zero =>
    intro g l hf hg
    rw [List.length_eq_zero.mp (Nat.le_zero.mp hf), replaceGo_nil, replaceGo_nil]
  | succ f ih =>
    intro g l hf hg
    cases l with
    | nil => rw [replaceGo_nil, replaceGo_nil]
    | cons c rest =>
      cases g with
      | zero => simp at hg
      | succ g' =>
        show (if startsWithL summaryMarker (c :: rest) = true
            then replaceGo f ((c :: rest).drop summaryMarker.length)
            else c :: replaceGo f rest) =
          (if startsWithL summaryMarker (c :: rest) = true
            then replaceGo g' ((c :: rest).drop summaryMarker.length)
            else c :: replaceGo g' rest)
        simp only [List.length_cons] at hf hg
        by_cases hsw : startsWithL summaryMarker (c :: rest) = true
        · rw [if_pos hsw, if_pos hsw, ih g' _
            (by simp only [List.length_drop, List.length_cons,
              show summaryMarker.length = 8 from rfl]; omega)
            (by simp only [List.length_drop, List.length_cons,
              show summaryMarker.length = 8 from rfl]; omega)]
        · rw [if_neg hsw, if_neg hsw, ih g' rest (by omega) (by omega)]

/-- A text with no occurrence of the marker is left unchanged by the
replacement. -/
theorem replaceSummary_no_occ (l : List Char)
    (h : ∀ i, i < l.length → startsWithL summaryMarker (l.drop i) = false) :
    replaceSummary l = l := by
  suffices hgen : ∀ (f : Nat) (l : List Char), l.length ≤ f →
      (∀ i, i < l.length → startsWithL summaryMarker (l.drop i) = false) →
      replaceGo f l = l from hgen l.length l le_rfl h
  intro f
  induction f with
  | zero =>
    intro l hf _
    rw [List.length_eq_zero.mp (Nat.le_zero.mp hf), replaceGo_nil]
  | succ f ih =>
    intro l hf h
    cases l with
    | nil => rw [replaceGo_nil]
    | cons c rest =>
      have h0 : startsWithL summaryMarker (c :: rest) = false := by
        have := h 0 (by simp)
        simpa using this
      show (if startsWithL summaryMarker (c :: rest) = true
          then replaceGo f ((c :: rest).drop summaryMarker.length)
          else c :: replaceGo f rest) = c :: rest
      rw [h0]
      simp only [Bool.false_eq_true, if_false]
      rw [ih rest (by simp only [List.length_cons] at hf; omega) (fun i hi => by
        have := h (i + 1) (by simp only [List.length_cons]; omega)
        simpa using this)]

/-- Replacing across a text whose first marker occurrence starts right
after `a` deletes that occurrence and continues on the remainder. -/
theorem replaceSummary_first_occ (a rest : List Char)
    (h : ∀ i, i < a.length →
      startsWithL summaryMarker ((a ++ (summaryMarker ++ rest)).drop i) = false) :
    replaceSummary (a ++ (summaryMarker ++ rest)) = a ++ replaceSummary rest := by
  suffices hgen : ∀ (a : List Char) (f : Nat),
      (a ++ (summaryMarker ++ rest)).length ≤ f →
      (∀ i, i < a.length →
        startsWithL summaryMarker ((a ++ (summaryMarker ++ rest)).drop i) = false) →
      replaceGo f (a ++ (summaryMarker ++ rest)) = a ++ replaceSummary rest from
    hgen a _ le_rfl h
  intro a
  induction a with
  | nil =>
    intro f hf _
    simp only [List.nil_append] at hf ⊢
    cases f with
    | zero =>
      exact absurd hf (by simp [summaryMarker])
    | succ f' =>
      show (if startsWithL summaryMarker (summaryMarker ++ rest) = true
          then replaceGo f' ((summaryMarker ++ rest).drop summaryMarker.length)
          else 'S' :: replaceGo f' (("UMMARY:").data ++ rest)) = replaceSummary rest
      rw [startsWithL_append_self, if_pos rfl, List.drop_left]
      rw [replaceGo_fuel f' rest.length rest
        (by simp only [List.length_append,
          show summaryMarker.length = 8 from rfl] at hf; omega) le_rfl]
      rfl
  | cons c a' ih =>
    intro f hf h
    cases f with
    | zero =>
      exact absurd hf (by simp)
    | succ f' =>
      have h0 : startsWithL summaryMarker (c :: (a' ++ (summaryMarker ++ rest))) = false := by
        have := h 0 (by simp)
        simpa using this
      show (if startsWithL summaryMarker (c :: (a' ++ (summaryMarker ++ rest))) = true
          then replaceGo f' ((c :: (a' ++ (summaryMarker ++ rest))).drop summaryMarker.length)
          else c :: replaceGo f' (a' ++ (summaryMarker ++ rest))) =
        (c :: a') ++ replaceSummary rest
      rw [h0]
      simp only [Bool.false_eq_true, if_false]
      rw [ih f' (by simp only [List.length_cons, List.length_append] at hf ⊢; omega)
        (fun i hi => by
          have := h (i + 1) (by simp only [List.length_cons]; omega)
          simpa using this)]
      rfl

/-! ## Claims C6, C7, C10: the section-header mode -/

/-- Core fact shared by the section-mode claims: on input whose only
`ACTIONS:` occurrence starts right after `pre`, the mode yields the
stripped marker-free `pre` and the trimmed `post`. -/
theorem parse_sections_one_marker (pre post : List Char)
    (honly : ∀ i, i < (pre ++ (actionsMarker ++ post)).length →
      startsWithL actionsMarker ((pre ++ (actionsMarker ++ post)).drop i) = true →
      i = pre.length) :
    parse_sections (pre ++ (actionsMarker ++ post)) =
      (pyStrip (replaceSummary pre), pyStrip post) := by
  have hpre : ∀ i, i < pre.length →
      startsWithL actionsMarker ((pre ++ (actionsMarker ++ post)).drop i) = false := by
    intro i hi
    cases hsw : startsWithL actionsMarker ((pre ++ (actionsMarker ++ post)).drop i) with
    | false => rfl
    | true =>
      exfalso
      have := honly i (by simp only [List.length_append]; omega) hsw
      omega
  have hpost : ∀ i, i < post.length → startsWithL actionsMarker (post.drop i) = false := by
    intro i hi
    cases hsw : startsWithL actionsMarker (post.drop i) with
    | false => rfl
    | true =>
      exfalso
      have hdrop : (pre ++ (actionsMarker ++ post)).drop (pre.length + (actionsMarker.length + i)) =
          post.drop i := by
        rw [← List.drop_drop, ← List.drop_drop, List.drop_left]
        rw [List.drop_left]
      have h2 : startsWithL actionsMarker
          ((pre ++ (actionsMarker ++ post)).drop (pre.length + (actionsMarker.length + i))) =
          true := by rw [hdrop]; exact hsw
      have := honly _ (by
        simp only [List.length_append, show actionsMarker.length = 8 from rfl] at *
        omega) h2
      simp only [show actionsMarker.length = 8 from rfl] at this
      omega
  unfold parse_sections
  rw [splitActions_first_occ pre post hpre, splitActions_no_occ post hpost]

/-- C6 (amended): on input containing exactly one occurrence of the
`ACTIONS:` marker, actions is all of the text after the marker, trimmed,
and summary is the text before the marker with the `SUMMARY:` marker
stripped out and trimmed.  (The split is on every occurrence, so with
several markers the actions block stops at the next occurrence.) -/
theorem sections_single_marker (pre post : List Char)
    (honly : ∀ i, i < (pre ++ (actionsMarker ++ post)).length →
      startsWithL actionsMarker ((pre ++ (actionsMarker ++ post)).drop i) = true →
      i = pre.length) :
    parse_sections (pre ++ (actionsMarker ++ post)) =
      (pyStrip (replaceSummary pre), pyStrip post) :=
  parse_sections_one_marker pre post honly

/-- Witness for C6: the spec's own section-mode example. -/
theorem sections_single_marker_witness :
    ("SUMMARY: great day ").data ++ (actionsMarker ++ (" - do X\n- do Y").data) =
      ("SUMMARY: great day ACTIONS: - do X\n- do Y").data ∧
    parse_sections (("SUMMARY: great day ACTIONS: - do X\n- do Y").data) =
      (("great day").data, ("- do X\n- do Y").data) := by
  refine ⟨rfl, ?_⟩
  exact sections_single_marker (("SUMMARY: great day ").data) ((" - do X\n- do Y").data)
    (by decide)

/-- Counterexample for C6 as stated: with two `ACTIONS:` markers the
actions block is only the text between the first two occurrences, not all
of the text after the first marker. -/
theorem sections_single_marker_cex :
    (parse_sections (("SUMMARY: s ACTIONS: a ACTIONS: b").data)).2 = ("a").data ∧
    (("a").data : List Char) ≠ ("a ACTIONS: b").data := by
  exact ⟨rfl, by decide⟩

/-- C7: section-header mode never fails — on any input without the
`ACTIONS:` marker it still returns two text blocks: the fixed fallback
message for actions, and the whole input with `SUMMARY:` stripped out and
trimmed for summary. -/
theorem sections_no_marker (l : List Char)
    (h : ∀ i, i < l.length → startsWithL actionsMarker (l.drop i) = false) :
    parse_sections l = (pyStrip (replaceSummary l), ("Could not parse actions.").data) := by
  unfold parse_sections
  rw [splitActions_no_occ l h]

/-- Witness for C7: a markerless input. -/
theorem sections_no_marker_witness :
    parse_sections (("  just SUMMARY: a summary ").data) =
      (("just  a summary").data, ("Could not parse actions.").data) :=
  sections_no_marker (("  just SUMMARY: a summary ").data) (by decide)

/-- C10: the `SUMMARY:` marker is removed from the pre-`ACTIONS:` text by
global replacement — with two occurrences in the summary block, both are
deleted, not only a single leading marker. -/
theorem summary_removed_globally (a b c post : List Char)
    (ha : ∀ i, i < a.length →
      startsWithL summaryMarker
        ((a ++ (summaryMarker ++ (b ++ (summaryMarker ++ c)))).drop i) = false)
    (hb : ∀ i, i < b.length →
      startsWithL summaryMarker ((b ++ (summaryMarker ++ c)).drop i) = false)
    (hc : ∀ i, i < c.length → startsWithL summaryMarker (c.drop i) = false)
    (hact : ∀ i,
      i < ((a ++ (summaryMarker ++ (b ++ (summaryMarker ++ c)))) ++ (actionsMarker ++ post)).length →
      startsWithL actionsMarker
        (((a ++ (summaryMarker ++ (b ++ (summaryMarker ++ c)))) ++ (actionsMarker ++ post)).drop i) =
        true →
      i = (a ++ (summaryMarker ++ (b ++ (summaryMarker ++ c)))).length) :
    (parse_sections
        ((a ++ (summaryMarker ++ (b ++ (summaryMarker ++ c)))) ++ (actionsMarker ++ post))).1 =
      pyStrip (a ++ (b ++ c)) := by
  rw [parse_sections_one_marker _ post hact]
  show pyStrip (replaceSummary (a ++ (summaryMarker ++ (b ++ (summaryMarker ++ c))))) = _
  rw [replaceSummary_first_occ a _ ha, replaceSummary_first_occ b c hb,
    replaceSummary_no_occ c hc]

/-- Witness for C10: two `SUMMARY:` markers before the `ACTIONS:` marker,
both deleted. -/
theorem summary_removed_globally_witness :
    (parse_sections (("intro SUMMARY: mid SUMMARY: tailACTIONS: acts").data)).1 =
      ("intro  mid  tail").data :=
  summary_removed_globally (("intro ").data) ((" mid ").data) ((" tail").data)
    ((" acts").data) (by decide) (by decide) (by decide) (by decide)

/-! ## Claim C8: the prompt builder -/

theorem containsSub_append_right (x pat l : List Char)
    (h : containsSub pat l = true) : containsSub pat (x ++ l) = true := by
  induction x with
  | nil => exact h
  | cons c xs ih =>
    show (startsWithL pat (c :: (xs ++ l)) || containsSub pat (xs ++ l)) = true
    rw [ih, Bool.or_true]

/-- Stripping whitespace from a three-part text whose outer parts survive
partially leaves the middle untouched. -/
theorem pyStrip_decomp (pre mid suf : List Char)
    (hpre : (pre.dropWhile pyIsSpace).isEmpty = false)
    (hsuf : (suf.reverse.dropWhile pyIsSpace).isEmpty = false) :
    pyStrip (pre ++ (mid ++ suf)) =
      pre.dropWhile pyIsSpace ++
        (mid ++ (suf.reverse.dropWhile pyIsSpace).reverse) := by
  unfold pyStrip
  rw [List.dropWhile_append, hpre]
  simp only [Bool.false_eq_true, if_false]
  rw [show (pre.dropWhile pyIsSpace ++ (mid ++ suf)).reverse =
      suf.reverse ++ (mid.reverse ++ (pre.dropWhile pyIsSpace).reverse) from by
    simp [List.reverse_append]]
  rw [List.dropWhile_append, hsuf]
  simp only [Bool.false_eq_true, if_false]
  simp [List.reverse_append, List.append_assoc]

set_option maxRecDepth 4000 in
set_option maxHeartbeats 1000000 in
/-- The stripped prompt decomposes into the stripped head, the rating
label and value, the review preamble, the verbatim review, and the
stripped tail. -/
theorem build_prompt_decomp (rating : Int) (review : String) :
    (build_prompt rating review).data =
      promptTplHead.data.dropWhile pyIsSpace ++
        (((("Rating: ").data ++ (toString rating).data) ++
          (promptTplB.data ++ (review.data ++
            (promptTplC.data.reverse.dropWhile pyIsSpace).reverse)))) := by
  show pyStrip ((promptTplHead ++ ("Rating: ")).data ++ (toString rating).data
      ++ promptTplB.data ++ review.data ++ promptTplC.data) = _
  rw [show (promptTplHead ++ ("Rating: ")).data ++ (toString rating).data
      ++ promptTplB.data ++ review.data ++ promptTplC.data =
      promptTplHead.data ++
        (((("Rating: ").data ++ (toString rating).data) ++
          (promptTplB.data ++ review.data)) ++ promptTplC.data) from by
    rw [String.data_append]
    simp [List.append_assoc]]
  rw [pyStrip_decomp promptTplHead.data _ promptTplC.data (by decide) (by decide)]
  simp [List.append_assoc]

/-- The three general prompt facts: the rating is embedded after its
label, the review is embedded verbatim, and the stripped prompt ends in
the `JSON:` cue. -/
theorem build_prompt_marks (rating : Int) (review : String) :
    containsSub (("Rating: ") ++ toString rating).data (build_prompt rating review).data = true ∧
    containsSub review.data (build_prompt rating review).data = true ∧
    endsWithL (("JSON:").data) (build_prompt rating review).data = true := by
  have hd := build_prompt_decomp rating review
  refine ⟨?_, ?_, ?_⟩
  · rw [hd]
    rw [show (("Rating: ") ++ toString rating).data =
      ("Rating: ").data ++ (toString rating).data from rfl]
    exact containsSub_append_middle _ _ _
  · rw [hd]
    refine containsSub_append_right _ _ _ ?_
    rw [show ((("Rating: ").data ++ (toString rating).data) ++
        (promptTplB.data ++ (review.data ++
          (promptTplC.data.reverse.dropWhile pyIsSpace).reverse))) =
        ((("Rating: ").data ++ (toString rating).data) ++ promptTplB.data) ++
          (review.data ++
            (promptTplC.data.reverse.dropWhile pyIsSpace).reverse) from by
      simp [List.append_assoc]]
    exact containsSub_append_middle _ _ _
  · rw [hd]
    refine endsWithL_append_left _ ?_
    refine endsWithL_append_left _ ?_
    refine endsWithL_append_left _ ?_
    refine endsWithL_append_left _ ?_
    decide

/-- C8: `build_prompt` is a pure function whose output contains the
literal `Rating: ` followed by the rating, contains the review verbatim
(neither truncated nor escaped, including braces and quotes), and ends in
`JSON:`; in particular at `(5, "Great food!")` it contains `Rating: 5`
and `Great food!` and ends in `JSON:`. -/
theorem build_prompt_spec (rating : Int) (review : String) :
    containsSub (("Rating: ") ++ toString rating).data (build_prompt rating review).data = true ∧
    containsSub review.data (build_prompt rating review).data = true ∧
    endsWithL (("JSON:").data) (build_prompt rating review).data = true ∧
    containsSub (("Rating: 5").data) (build_prompt 5 ("Great food!")).data = true ∧
    containsSub (("Great food!").data) (build_prompt 5 ("Great food!")).data = true ∧
    endsWithL (("JSON:").data) (build_prompt 5 ("Great food!")).data = true := by
  have hg := build_prompt_marks rating review
  have h5 := build_prompt_marks 5 ("Great food!")
  exact ⟨hg.1, hg.2.1, hg.2.2, h5.1, h5.2.1, h5.2.2⟩

/-! ## Claim C9: the model-invocation collaborator -/

/-- C9 (amended): `call_llm` fails with the authentication error when no
credential is configured — eagerly, independently of any response; fails
with the service error carrying status and body on a non-200 response;
normalizes both accepted response shapes (single object with
`generated_text`, or a sequence whose first element is an object with
`generated_text`) to the contained text; falls back to the Python string
rendering of the raw response when no `generated_text` is extractable and
no list head makes the membership test or subscript raise; and raises an
uncaught `TypeError` on a 200 sequence response whose first element is a
scalar, or is a string or sequence that contains `generated_text`. -/
theorem call_llm_spec :
    (∀ (token : Option String) (resp resp2 : HttpResponse), tokenMissing token = true →
      call_llm token resp = .authMissing ∧ call_llm token resp = call_llm token resp2) ∧
    (∀ (token : Option String) (resp : HttpResponse), tokenMissing token = false →
      resp.status_code ≠ 200 →
      call_llm token resp = .serviceError resp.status_code resp.text) ∧
    (∀ (token : Option String) (resp : HttpResponse) (fs : List (String × JValue))
      (rest : List JValue) (s : String), tokenMissing token = false →
      resp.status_code = 200 → resp.body = .arr (.obj fs :: rest) →
      pyGet fs ("generated_text") = some (.str s) →
      call_llm token resp = .ok (.str s)) ∧
    (∀ (token : Option String) (resp : HttpResponse) (fs : List (String × JValue))
      (s : String), tokenMissing token = false →
      resp.status_code = 200 → resp.body = .obj fs →
      pyGet fs ("generated_text") = some (.str s) →
      call_llm token resp = .ok (.str s)) ∧
    (∀ (token : Option String) (resp : HttpResponse), tokenMissing token = false →
      resp.status_code = 200 →
      (∀ (fs : List (String × JValue)) (rest : List JValue) (v : JValue),
        resp.body = .arr (.obj fs :: rest) → pyGet fs ("generated_text") = some v → False) →
      (∀ (fs : List (String × JValue)) (v : JValue),
        resp.body = .obj fs → pyGet fs ("generated_text") = some v → False) →
      (∀ (first : JValue) (rest : List JValue),
        resp.body = .arr (first :: rest) → headTypeErrors first = false) →
      call_llm token resp = .ok (.str (pyStr resp.body))) ∧
    (∀ (token : Option String) (resp : HttpResponse) (first : JValue) (rest : List JValue),
      tokenMissing token = false → resp.status_code = 200 →
      resp.body = .arr (first :: rest) → headTypeErrors first = true →
      call_llm token resp = .typeError) := by
  refine ⟨?_, ?_, ?_, ?_, ?_, ?_⟩
  · intro token resp resp2 hm
    constructor
    · unfold call_llm
      rw [hm, if_pos rfl]
    · unfold call_llm
      rw [hm, if_pos rfl, if_pos rfl]
  · intro token resp hm hs
    unfold call_llm
    rw [hm]
    simp only [Bool.false_eq_true, if_false]
    rw [if_pos hs]
  · intro token resp fs rest s hm hst hbody hgen
    unfold call_llm
    rw [hm]
    simp only [Bool.false_eq_true, if_false]
    rw [if_neg (by simp [hst]), hbody]
    show (match pyGet fs ("generated_text") with
      | some v => CallResult.ok v
      | none => CallResult.ok (JValue.str (pyStr (JValue.arr (JValue.obj fs :: rest))))) =
      CallResult.ok (JValue.str s)
    rw [hgen]
  · intro token resp fs s hm hst hbody hgen
    unfold call_llm
    rw [hm]
    simp only [Bool.false_eq_true, if_false]
    rw [if_neg (by simp [hst]), hbody]
    show (match pyGet fs ("generated_text") with
      | some v => CallResult.ok v
      | none => CallResult.ok (JValue.str (pyStr (JValue.obj fs)))) =
      CallResult.ok (JValue.str s)
    rw [hgen]
  · intro token resp hm hst harr hobj hsafe
    unfold call_llm
    rw [hm]
    simp only [Bool.false_eq_true, if_false]
    rw [if_neg (by simp [hst])]
    cases hbody : resp.body with
    | null => rfl
    | bool b => rfl
    | num n => rfl
    | str s2 => rfl
    | arr elems =>
      cases elems with
      | nil => rfl
      | cons e erest =>
        have hte := hsafe e erest hbody
        cases e with
        | obj fs =>
          cases hg : pyGet fs ("generated_text") with
          | none =>
            show (match pyGet fs ("generated_text") with
              | some v => CallResult.ok v
              | none => CallResult.ok (JValue.str (pyStr (JValue.arr (JValue.obj fs :: erest))))) =
              CallResult.ok (JValue.str (pyStr (JValue.arr (JValue.obj fs :: erest))))
            rw [hg]
          | some v => exact absurd hg (fun hg2 => harr fs erest v hbody hg2)
        | str s2 =>
          have hte2 : containsSub ("generated_text").data s2.data = false := hte
          show (if containsSub ("generated_text").data s2.data = true then CallResult.typeError
            else CallResult.ok (JValue.str (pyStr (JValue.arr (JValue.str s2 :: erest))))) =
            CallResult.ok (JValue.str (pyStr (JValue.arr (JValue.str s2 :: erest))))
          rw [hte2]
          simp only [Bool.false_eq_true, if_false]
        | arr l2 =>
          have hte2 : l2.any isGeneratedTextStr = false := hte
          show (if l2.any isGeneratedTextStr = true then CallResult.typeError
            else CallResult.ok (JValue.str (pyStr (JValue.arr (JValue.arr l2 :: erest))))) =
            CallResult.ok (JValue.str (pyStr (JValue.arr (JValue.arr l2 :: erest))))
          rw [hte2]
          simp only [Bool.false_eq_true, if_false]
        | null => exact Bool.noConfusion hte
        | bool b => exact Bool.noConfusion hte
        | num n => exact Bool.noConfusion hte
    | obj fs =>
      cases hg : pyGet fs ("generated_text") with
      | none =>
        show (match pyGet fs ("generated_text") with
          | some v => CallResult.ok v
          | none => CallResult.ok (JValue.str (pyStr (JValue.obj fs)))) =
          CallResult.ok (JValue.str (pyStr (JValue.obj fs)))
        rw [hg]
      | some v => exact absurd hg (fun hg2 => hobj fs v hbody hg2)
  · intro token resp first rest hm hst hbody hcrash
    unfold call_llm
    rw [hm]
    simp only [Bool.false_eq_true, if_false]
    rw [if_neg (by simp [hst]), hbody]
    cases first with
    | null => rfl
    | bool b => rfl
    | num n => rfl
    | obj fs => exact Bool.noConfusion hcrash
    | str s2 =>
      have hc : containsSub ("generated_text").data s2.data = true := hcrash
      show (if containsSub ("generated_text").data s2.data = true then CallResult.typeError
        else CallResult.ok (JValue.str (pyStr (JValue.arr (JValue.str s2 :: rest))))) =
        CallResult.typeError
      rw [hc, if_pos rfl]
    | arr l2 =>
      have hc : l2.any isGeneratedTextStr = true := hcrash
      show (if l2.any isGeneratedTextStr = true then CallResult.typeError
        else CallResult.ok (JValue.str (pyStr (JValue.arr (JValue.arr l2 :: rest))))) =
        CallResult.typeError
      rw [hc, if_pos rfl]

/-- Witness for C9: one concrete run of each branch, including the
string-head fallback and the scalar-head `TypeError`. -/
theorem call_llm_spec_witness :
    call_llm none ⟨200, "", .null⟩ = .authMissing ∧
    call_llm (some ("tok")) ⟨404, "bad", .null⟩ = .serviceError 404 ("bad") ∧
    call_llm (some ("tok")) ⟨200, "", .arr [.obj [(("generated_text" : String), JValue.str ("hi"))]]⟩ =
      .ok (.str ("hi")) ∧
    call_llm (some ("tok")) ⟨200, "", .obj [(("generated_text" : String), JValue.str ("hi"))]⟩ =
      .ok (.str ("hi")) ∧
    call_llm (some ("tok")) ⟨200, "", .bool true⟩ = .ok (.str ("True")) ∧
    call_llm (some ("tok")) ⟨200, "", .arr [.str ("hello")]⟩ = .ok (.str ("[\x27hello\x27]")) ∧
    call_llm (some ("tok")) ⟨200, "", .arr [.num 5]⟩ = .typeError := by
  refine ⟨(call_llm_spec.1 none ⟨200, "", .null⟩ ⟨0, "", .null⟩ rfl).1,
    call_llm_spec.2.1 (some ("tok")) ⟨404, "bad", .null⟩ rfl (by decide),
    call_llm_spec.2.2.1 (some ("tok")) _ [(("generated_text" : String), JValue.str ("hi"))] [] ("hi")
      rfl rfl rfl rfl,
    call_llm_spec.2.2.2.1 (some ("tok")) _ [(("generated_text" : String), JValue.str ("hi"))] ("hi")
      rfl rfl rfl rfl,
    call_llm_spec.2.2.2.2.1 (some ("tok")) ⟨200, "", .bool true⟩ rfl rfl
      (fun fs rest v hb _ => JValue.noConfusion hb)
      (fun fs v hb _ => JValue.noConfusion hb)
      (fun first rest hb => JValue.noConfusion hb),
    call_llm_spec.2.2.2.2.1 (some ("tok")) ⟨200, "", .arr [.str ("hello")]⟩ rfl rfl
      (by
        intro fs rest v hb _
        injection hb with h1
        injection h1 with h2 h3
        exact JValue.noConfusion h2)
      (fun fs v hb _ => JValue.noConfusion hb)
      (by
        intro first rest hb
        injection hb with h1
        injection h1 with h2 h3
        rw [← h2]
        decide),
    call_llm_spec.2.2.2.2.2 (some ("tok")) ⟨200, "", .arr [.num 5]⟩ (.num 5) [] rfl rfl rfl rfl⟩

/-- Counterexample for C9 as stated: on a 200 sequence response whose
first element is the number 5 — a body matching neither accepted shape —
the source raises `TypeError` at the membership test instead of returning
the string rendering of the raw response. -/
theorem call_llm_spec_cex :
    call_llm (some ("tok")) ⟨200, "", .arr [.num 5]⟩ = .typeError ∧
    CallResult.typeError ≠ CallResult.ok (.str (pyStr (.arr [.num 5]))) := by
  refine ⟨rfl, fun h => CallResult.noConfusion h⟩

end FeedbackCore
